import Mathlib

/-!
Verification of the Gyoshu bridge (`src/scripts/gyoshu_bridge.py`): a shallow
embedding of its protocol layer, session state, bounded line reader, bounded
output capture, marker annotator, and execution coordinator, together with
theorems checking the natural-language specification against that embedding.

Python values appearing on the wire are modelled by an inductive `Json` type;
Python machine floats that the bridge treats as plain numbers (timeouts,
memory figures) are modelled by `ℚ`; text is modelled by `String` or
`List Char`; byte streams by `List ℕ`.  The external evaluation collaborator
(`compile`/`exec` of user code) is, as in the spec, kept abstract: it enters
the model as an explicit `EvalBehavior` oracle describing what evaluating the
given code in the given namespace would do (duration, output writes, outcome,
resulting namespace).  Everything else is translated directly from the source.
-/

namespace Gyoshu

/-- JSON values, as produced by `json.loads` (objects keep their key order;
a parsed object has no duplicate keys, and lookup takes the first match). -/
inductive Json where
  | null
  | bool (b : Bool)
  | num (q : ℚ)
  | str (s : String)
  | arr (elems : List Json)
  | obj (fields : List (String × Json))

/-- Python truthiness (`not x`) on JSON-shaped values: `None`, `False`, `0`,
`""`, `[]`, `{}` are falsy. -/
def truthy : Json → Bool
  | .null => false
  | .bool b => b
  | .num q => if q = 0 then false else true
  | .str s => if s = "" then false else true
  | .arr elems => if elems.isEmpty then false else true
  | .obj fields => if fields.isEmpty then false else true

/-- `d.get(k)` on a parsed JSON object. -/
def pyGet (fields : List (String × Json)) (k : String) : Option Json :=
  fields.lookup k

/-- Truthiness of `d.get(k)` (`None` when the key is absent). -/
def truthyOpt : Option Json → Bool
  | none => false
  | some j => truthy j

-- JSON-RPC 2.0 error codes (source lines 45-51)
def ERROR_PARSE : Int := -32700
def ERROR_INVALID_REQUEST : Int := -32600
def ERROR_METHOD_NOT_FOUND : Int := -32601
def ERROR_INVALID_PARAMS : Int := -32602
def ERROR_INTERNAL : Int := -32603
def ERROR_EXECUTION : Int := -32000
def ERROR_TIMEOUT : Int := -32001

/-- A JSON-RPC 2.0 error object, as built by `make_error`. -/
structure ErrObj where
  code : Int
  message : String
  data : Option Json

/-- `make_error` (source lines 84-89). -/
def make_error (code : Int) (message : String) (data : Option Json) : ErrObj :=
  ⟨code, message, data⟩

/-- A response as serialized by `send_response`: the `jsonrpc` literal is
constant, `id` is always present (Python `None` becomes JSON `null`), and the
`result` / `error` fields are each either present (`some`) or absent
(`none`).  Note that a present `result` field may hold the value `null`. -/
structure Response where
  id : Json
  result : Option Json
  error : Option ErrObj

/-- `send_response` (source lines 67-81): if `error is not None` the response
gets an `error` field, otherwise it gets a `result` field whose value is the
`result` argument (JSON `null` when that argument is Python `None`). -/
def send_response (id : Json) (result : Option Json) (error : Option ErrObj) :
    Response :=
  match error with
  | some e => ⟨id, none, some e⟩
  | none => ⟨id, some (result.getD Json.null), none⟩

/-- A response carries exactly one of the `result` / `error` fields. -/
def exactlyOneOf (r : Response) : Prop :=
  (r.result.isSome ∧ r.error = none) ∨ (r.result = none ∧ r.error.isSome)

theorem send_response_exactlyOne (id : Json) (result : Option Json)
    (error : Option ErrObj) : exactlyOneOf (send_response id result error) := by
  cases error with
  | none => exact Or.inl ⟨rfl, rfl⟩
  | some e => exact Or.inr ⟨rfl, rfl⟩

theorem send_response_id (id : Json) (result : Option Json)
    (error : Option ErrObj) : (send_response id result error).id = id := by
  cases error <;> rfl

/-!
## Marker parsing (source lines 96-187)

`MARKER_REGEX = ^\s*\[([A-Z][A-Z0-9_-]*)(?::([^\]]+))?\]\s*(.*)$` with
`re.MULTILINE`, scanned with `finditer`.  The matcher below reproduces the
regex's backtracking semantics on this concrete pattern:
* `^` only matches at offset 0 or right after a newline, so candidate match
  positions are line starts at or after the previous match's end;
* each greedy sub-expression (`\s*`, `[A-Z0-9_-]*`, `[^\]]+`, `\s*`, `.*`)
  is followed by a literal that no character of its class can satisfy, so its
  maximal run is the only run the engine can use — backtracking never yields
  a second candidate and taking maximal runs (`takeWhile`) is exact;
* `\s` also matches newlines, so the two `\s*` parts and `[^\]]+` may cross
  line boundaries; `.` does not match a newline and `$` matches before one.
-/

/-- Python `\s` / `str.strip()` whitespace for text patterns (Unicode). -/
def isPySpace (c : Char) : Bool :=
  c == ' ' || c == '\t' || c == '\n' || c == '\r' || c == '\x0b' || c == '\x0c' ||
  c == '\x1c' || c == '\x1d' || c == '\x1e' || c == '\x1f' || c == '\x85' ||
  c == '\xa0' || c == ' ' || c == ' ' || c == ' ' || c == ' ' ||
  c == ' ' || c == ' ' || c == ' ' || c == ' ' || c == ' ' ||
  c == ' ' || c == ' ' || c == ' ' || c == ' ' || c == ' ' ||
  c == ' ' || c == ' ' || c == '　'

/-- The regex class `[A-Z0-9_-]`. -/
def isTypeChar (c : Char) : Bool :=
  c.isUpper || c.isDigit || c == '_' || c == '-'

/-- The regex class `[^\]]`. -/
def notRBracket (c : Char) : Bool := !(c == ']')

/-- The regex `.` (anything but a newline). -/
def notNewline (c : Char) : Bool := !(c == '\n')

/-- The pieces of one successful `MARKER_REGEX` match: groups 1-3 and the
unconsumed suffix of the text after the match end. -/
structure MatchParts where
  rawType : List Char
  subtype : Option (List Char)
  rawContent : List Char
  rest : List Char

/-- The `\s*(.*)$` tail of the pattern, applied after the closing bracket:
skip the maximal whitespace run (which may cross newlines), then group 3 is
the rest of the line.  Returns (group 3, suffix after the match end). -/
def afterBracketClose (r : List Char) : List Char × List Char :=
  ((r.dropWhile isPySpace).takeWhile notNewline,
   (r.dropWhile isPySpace).dropWhile notNewline)

/-- Attempt to match `MARKER_REGEX` at the start of `s` (a line start). -/
def tryMatchAt (s : List Char) : Option MatchParts :=
  match s.dropWhile isPySpace with
  | '[' :: r2 =>
    match r2 with
    | c :: r3 =>
      if c.isUpper then
        match r3.dropWhile isTypeChar with
        | ':' :: r5 =>
          match r5.dropWhile notRBracket with
          | ']' :: r7 =>
            if (r5.takeWhile notRBracket).isEmpty then none
            else
              some ⟨c :: r3.takeWhile isTypeChar, some (r5.takeWhile notRBracket),
                    (afterBracketClose r7).1, (afterBracketClose r7).2⟩
          | _ => none
        | ']' :: r7 =>
          some ⟨c :: r3.takeWhile isTypeChar, none,
                (afterBracketClose r7).1, (afterBracketClose r7).2⟩
        | _ => none
      else none
    | [] => none
  | _ => none

/-- One raw `finditer` match: the absolute offset where `^` matched plus the
captured groups. -/
structure RawMarker where
  start : ℕ
  rawType : List Char
  subtype : Option (List Char)
  rawContent : List Char

/-- The `finditer` scan: try the pattern at the current line start; on a
match, emit it and resume at the next line start after the match end (the
match always ends at a line end); on a failure, resume at the next line
start.  `fuel` bounds the recursion and strictly exceeds `s.length` at every
call from `parse_markers`, so it never runs out (each step consumes at least
one character of `s`). -/
def findMarkersFuel : ℕ → ℕ → List Char → List RawMarker
  | 0, _, _ => []
  | fuel + 1, off, s =>
    match tryMatchAt s with
    | some mp =>
      ⟨off, mp.rawType, mp.subtype, mp.rawContent⟩ ::
        findMarkersFuel fuel (off + (s.length - mp.rest.length) + 1) (mp.rest.drop 1)
    | none =>
      match s.dropWhile notNewline with
      | [] => []
      | _ :: tail =>
        findMarkersFuel fuel (off + (s.takeWhile notNewline).length + 1) tail

/-- `MARKER_CATEGORIES` (source lines 106-149). -/
def MARKER_CATEGORIES : List (String × String) :=
  [("OBJECTIVE", "research_process"),
   ("HYPOTHESIS", "research_process"),
   ("EXPERIMENT", "research_process"),
   ("OBSERVATION", "research_process"),
   ("ANALYSIS", "research_process"),
   ("CONCLUSION", "research_process"),
   ("DATA", "data_operations"),
   ("SHAPE", "data_operations"),
   ("DTYPE", "data_operations"),
   ("RANGE", "data_operations"),
   ("MISSING", "data_operations"),
   ("MEMORY", "data_operations"),
   ("CALC", "calculations"),
   ("METRIC", "calculations"),
   ("STAT", "calculations"),
   ("CORR", "calculations"),
   ("PLOT", "artifacts"),
   ("ARTIFACT", "artifacts"),
   ("TABLE", "artifacts"),
   ("FIGURE", "artifacts"),
   ("FINDING", "insights"),
   ("INSIGHT", "insights"),
   ("PATTERN", "insights"),
   ("STEP", "workflow"),
   ("STAGE", "workflow"),
   ("CHECKPOINT", "workflow"),
   ("CHECK", "workflow"),
   ("INFO", "workflow"),
   ("WARNING", "workflow"),
   ("ERROR", "workflow"),
   ("DEBUG", "workflow"),
   ("CITATION", "scientific"),
   ("LIMITATION", "scientific"),
   ("NEXT_STEP", "scientific"),
   ("DECISION", "scientific")]

/-- A parsed marker (one element of `parse_markers`' result). -/
structure Marker where
  type : String
  subtype : Option String
  content : String
  line_number : ℕ
  category : String
  valid : Bool
deriving DecidableEq

/-- `raw_type.replace("-", "_")` (source line 165). -/
def normalizeType (l : List Char) : List Char :=
  l.map (fun c => if c == '-' then '_' else c)

/-- Python `str.strip()`. -/
def pyStrip (l : List Char) : List Char :=
  ((l.dropWhile isPySpace).reverse.dropWhile isPySpace).reverse

/-- `MARKER_CATEGORIES.get(marker_type, "unknown")` (source line 173). -/
def categoryOf (t : String) : String :=
  (MARKER_CATEGORIES.lookup t).getD "unknown"

/-- `parse_markers` (source lines 152-187): scan the text with the regex,
normalize hyphens to underscores, strip the content, compute the 1-indexed
line number from the newline count before the match start, and classify
against the taxonomy (unknown types kept, flagged invalid). -/
def parse_markers (text : List Char) : List Marker :=
  (findMarkersFuel (text.length + 1) 0 text).map fun rm =>
    let ty := (normalizeType rm.rawType).asString
    { type := ty
      subtype := rm.subtype.map List.asString
      content := (pyStrip rm.rawContent).asString
      line_number := (text.take rm.start).count '\n' + 1
      category := categoryOf ty
      valid := (MARKER_CATEGORIES.lookup ty).isSome }

/-!
## Bounded output capture (source lines 194-232)
-/

def MAX_CAPTURE_CHARS : ℕ := 1048576

def TRUNCATION_NOTICE : List Char :=
  "\n[OUTPUT TRUNCATED - exceeded 1MB limit]".toList

/-- State of a `BoundedStringIO`.  `buffer` models `"".flatten(self._buffer)`;
Python strings are modelled as `List Char`. -/
structure BoundedStringIO where
  buffer : List Char
  size : ℕ
  max_size : ℕ
  truncated : Bool

/-- `BoundedStringIO(max_size)` (source lines 200-204). -/
def mkBounded (max_size : ℕ) : BoundedStringIO :=
  ⟨[], 0, max_size, false⟩

/-- `BoundedStringIO.write` (source lines 206-218).  The Python method also
returns `len(s)` and never raises; the model returns the new state (writing
is a total function). -/
def bwrite (b : BoundedStringIO) (s : List Char) : BoundedStringIO :=
  if b.truncated then b
  else if b.size + s.length > b.max_size then
    if b.max_size - b.size > 0 then
      { b with buffer := b.buffer ++ s.take (b.max_size - b.size), truncated := true }
    else
      { b with truncated := true }
  else
    { b with buffer := b.buffer ++ s, size := b.size + s.length }

/-- `BoundedStringIO.getvalue` (source lines 220-224). -/
def getvalue (b : BoundedStringIO) : List Char :=
  if b.truncated then b.buffer ++ TRUNCATION_NOTICE else b.buffer

/-- A sequence of `write` calls. -/
def writeAll (b : BoundedStringIO) (ws : List (List Char)) : BoundedStringIO :=
  ws.foldl bwrite b

/-!
## Bounded line reader (source lines 592-620)

Byte streams are modelled as `List ℕ` (the bytes remaining to be read); the
reader returns `(payload-or-none, oversized)` together with the unread rest
of the stream.
-/

def MAX_REQUEST_LINE_BYTES : ℕ := 10 * 1024 * 1024

def newlineByte : ℕ := 10

/-- The `while True` drain loop of `read_bounded_line` (source lines 616-619):
consume bytes up to and including the next newline (or to end of stream). -/
def dropThroughNewline : List ℕ → List ℕ
  | [] => []
  | c :: r => if c = newlineByte then r else dropThroughNewline r

/-- The main `while len(data) < max_bytes` loop of `read_bounded_line`
(source lines 604-620), with `data` accumulated in `acc`. -/
def readLoop (maxB : ℕ) (s acc : List ℕ) : (Option (List ℕ) × Bool) × List ℕ :=
  if acc.length < maxB then
    match s with
    | [] => ((if acc.isEmpty then none else some acc, false), [])
    | c :: rest =>
      if c = newlineByte then ((some acc, false), rest)
      else readLoop maxB rest (acc ++ [c])
  else
    ((some (acc.take maxB), true), dropThroughNewline s)

/-- `read_bounded_line` (source lines 595-620). -/
def read_bounded_line (s : List ℕ) (max_bytes : ℕ) :
    (Option (List ℕ) × Bool) × List ℕ :=
  readLoop max_bytes s []

/-!
## Session state and execution coordinator (source lines 299-584)

The single-threaded request loop processes one message at a time, so the
execution lock is uncontended on this path and the state machine is modelled
by plain state passing.  The evaluation collaborator (`compile` + `exec` of
arbitrary user code, source lines 425-428) is outside the core per the spec;
it enters as an `EvalBehavior` oracle.  `get_memory_usage`, wall-clock
timestamps and durations are environment readings and enter as `World`
oracle fields.
-/

/-- A Python value bound in the execution namespace (opaque to the core). -/
inductive PyVal where
  | vnull
  | vbool (b : Bool)
  | vnum (q : ℚ)
  | vstr (s : String)
  | vfunc (name : String)
  | vobj (tag : String)
deriving DecidableEq

/-- `ExecutionState` (source lines 299-359): persistent namespace plus the
interrupt flag.  (The execution lock is uncontended in the sequential
request loop and has no observable effect on these transitions.) -/
structure ExecutionState where
  nspace : List (String × PyVal)
  interrupt_flag : Bool
deriving DecidableEq

/-- `_initialize_namespace` (source lines 310-318). -/
def default_namespace : List (String × PyVal) :=
  [("__name__", .vstr "__gyoshu__"),
   ("__doc__", .vstr "Gyoshu execution namespace"),
   ("clean_memory", .vfunc "clean_memory"),
   ("get_memory", .vfunc "get_memory_usage")]

/-- The state constructed at startup (source lines 302-308, 363). -/
def initState : ExecutionState :=
  ⟨default_namespace, false⟩

/-- Python `s.startswith(pre)`, modelled on the character lists. -/
def pyStartsWith (s pre : String) : Bool :=
  pre.toList.isPrefixOf s.toList

/-- The user-visible variable names computed by `ExecutionState.get_state`
(source lines 336-340): namespace keys that do not start with an underscore
and are not the two helper bindings. -/
def stateVariables (nspace : List (String × PyVal)) : List String :=
  (nspace.map Prod.fst).filter fun k =>
    !(pyStartsWith k "_") && !(k == "clean_memory") && !(k == "get_memory")

/-- A `get_memory_usage` reading, `(rss_mb, vms_mb)`. -/
def memJson (m : ℚ × ℚ) : Json :=
  Json.obj [("rss_mb", .num m.1), ("vms_mb", .num m.2)]

/-- What `compile(code)` + `exec(compiled, namespace)` of the submitted code
would do if allowed to run to completion: its wall-clock running time in
seconds, its writes to the redirected stdout/stderr, its final outcome, and
the namespace contents it leaves behind (the namespace is passed by
reference and may be partially mutated even on an aborted run). -/
inductive EvalOut where
  | ok
  | syntaxErr (msg : String) (tb : String)
  | keyboardInt
  | exc (ty : String) (msg : String) (tb : String)
deriving DecidableEq

structure EvalBehavior where
  duration : ℚ
  writesOut : List (List Char)
  writesErr : List (List Char)
  outcome : EvalOut
  nspaceAfter : List (String × PyVal)

/-- The result dict built by `execute_code` (source lines 402-411). -/
structure ExecCodeResult where
  success : Bool
  stdout : List Char
  stderr : List Char
  stdout_truncated : Bool
  stderr_truncated : Bool
  exception : Option String
  exception_type : Option String
  traceback_ : Option String

/-- Python `int()` truncation toward zero on a number. -/
def pyIntTrunc (q : ℚ) : ℤ :=
  if 0 ≤ q then ⌊q⌋ else -⌊-q⌋

/-- The seconds for which `execute_code` arms `SIGALRM` (source lines
414-417): nothing is armed when `timeout` is falsy (`None` or `0`);
otherwise `signal.alarm(int(timeout))` is called — and `signal.alarm(0)`
*disarms* the alarm, so the armed duration is `int(timeout)` seconds. -/
def armedAlarmSeconds (timeout : Option ℚ) : ℕ :=
  match timeout with
  | none => 0
  | some t => if t = 0 then 0 else (pyIntTrunc t).toNat

/-- `execute_code` (source lines 382-467), on Unix (`SIGALRM` available).
The alarm aborts the evaluation via `ExecutionTimeoutError` exactly when it
is armed for fewer seconds than the evaluation would run; an armed value of
`0` means no alarm is pending and the evaluation runs to its own outcome.
Captured output goes through two fresh `BoundedStringIO`s. -/
def execute_code (_nspace : List (String × PyVal)) (timeout : Option ℚ)
    (ev : EvalBehavior) : ExecCodeResult × List (String × PyVal) :=
  let armed := armedAlarmSeconds timeout
  let aborted := armed ≠ 0 && decide ((armed : ℚ) < ev.duration)
  let so := writeAll (mkBounded MAX_CAPTURE_CHARS) ev.writesOut
  let se := writeAll (mkBounded MAX_CAPTURE_CHARS) ev.writesErr
  let base : ExecCodeResult :=
    { success := false, stdout := getvalue so, stderr := getvalue se,
      stdout_truncated := so.truncated, stderr_truncated := se.truncated,
      exception := none, exception_type := none, traceback_ := none }
  if aborted then
    ({ base with exception := some "Code execution timed out",
                 exception_type := some "TimeoutError",
                 traceback_ := some "Execution timed out" },
     ev.nspaceAfter)
  else
    match ev.outcome with
    | .ok => ({ base with success := true }, ev.nspaceAfter)
    | .syntaxErr m tb =>
      ({ base with exception := some m, exception_type := some "SyntaxError",
                   traceback_ := some tb }, ev.nspaceAfter)
    | .keyboardInt =>
      ({ base with exception := some "Execution interrupted",
                   exception_type := some "KeyboardInterrupt",
                   traceback_ := some "Interrupted by user" }, ev.nspaceAfter)
    | .exc ty m tb =>
      ({ base with exception := some m, exception_type := some ty,
                   traceback_ := some tb }, ev.nspaceAfter)

/-- Environment readings and collaborator behavior for one request:
memory snapshot, timestamp, measured duration, what evaluating the request's
code would do, and whether an unanticipated exception escapes the dispatched
handler (caught by the protocol boundary, source lines 691-698). -/
structure World where
  mem : ℚ × ℚ
  now : String
  durationMs : ℚ
  ev : EvalBehavior
  hexc : Option (String × String)

def markerJson (m : Marker) : Json :=
  Json.obj [("type", .str m.type),
            ("subtype", match m.subtype with | some s => .str s | none => .null),
            ("content", .str m.content),
            ("line_number", .num m.line_number),
            ("category", .str m.category),
            ("valid", .bool m.valid)]

def optStrJson : Option String → Json
  | some s => .str s
  | none => .null

/-- The `timeout` sanitation of `handle_execute` (source lines 497-499):
default 300, replace anything that is not a positive number by 300.
(Python's `isinstance(timeout, (int, float))` also accepts `bool`;
`True` compares `> 0` and is used as the number 1.) -/
def executeTimeout (params : List (String × Json)) : ℚ :=
  match pyGet params "timeout" with
  | none => 300
  | some (Json.num q) => if q ≤ 0 then 300 else q
  | some (Json.bool b) => if b then 1 else 300
  | some _ => 300

/-- The result object `handle_execute` builds (source lines 519-543),
including the markers parsed from captured stdout and the conditional
`error` member. -/
def executeResultJson (er : ExecCodeResult) (w : World) : Json :=
  Json.obj
    ([("success", .bool er.success),
      ("stdout", .str er.stdout.asString),
      ("stderr", .str er.stderr.asString),
      ("stdout_truncated", .bool er.stdout_truncated),
      ("stderr_truncated", .bool er.stderr_truncated),
      ("markers", .arr ((parse_markers er.stdout).map markerJson)),
      ("timing", .obj [("started_at", .str w.now), ("duration_ms", .num w.durationMs)]),
      ("memory", memJson w.mem)] ++
     (if er.success then []
      else [("error", Json.obj
        [("type", optStrJson er.exception_type),
         ("message", optStrJson er.exception),
         ("traceback", optStrJson er.traceback_)])]))

/-- `handle_execute` (source lines 475-545): validate `code`, default and
sanitize `timeout`, clear the interrupt flag, run `execute_code` on the
persistent namespace, parse markers from captured stdout, and reply with one
result object (application-level failures are *successful* RPC responses
carrying `success:false`). -/
def handle_execute (id : Json) (params : List (String × Json))
    (st : ExecutionState) (w : World) : Response × ExecutionState :=
  if !truthyOpt (pyGet params "code") then
    (send_response id none
      (some (make_error ERROR_INVALID_PARAMS "Missing required parameter: code" none)),
     st)
  else
    match pyGet params "code" with
    | some (Json.str _) =>
      -- interrupt flag cleared before the run (source line 502); the
      -- namespace is passed by reference and ends as the evaluation leaves it
      (send_response id
        (some (executeResultJson
          (execute_code st.nspace (some (executeTimeout params)) w.ev).1 w)) none,
       ⟨(execute_code st.nspace (some (executeTimeout params)) w.ev).2, false⟩)
    | _ =>
      (send_response id none
        (some (make_error ERROR_INVALID_PARAMS "Parameter 'code' must be a string" none)),
       st)

/-- `handle_interrupt` (source lines 548-551) with `ExecutionState.interrupt`
(source lines 348-351). -/
def handle_interrupt (id : Json) (st : ExecutionState) : Response × ExecutionState :=
  (send_response id (some (Json.obj [("status", .str "interrupt_requested")])) none,
   { st with interrupt_flag := true })

/-- `handle_reset` (source lines 554-557) with `ExecutionState.reset`
(source lines 320-331). -/
def handle_reset (id : Json) (_st : ExecutionState) (w : World) :
    Response × ExecutionState :=
  (send_response id
    (some (Json.obj [("status", .str "reset"), ("memory", memJson w.mem)])) none,
   ⟨default_namespace, false⟩)

/-- `handle_get_state` (source lines 560-563) with `ExecutionState.get_state`
(source lines 333-346). -/
def handle_get_state (id : Json) (st : ExecutionState) (w : World) :
    Response × ExecutionState :=
  (send_response id
    (some (Json.obj
      [("memory", memJson w.mem),
       ("variables", .arr ((stateVariables st.nspace).map Json.str)),
       ("variable_count", .num (stateVariables st.nspace).length)])) none,
   st)

/-- `handle_ping` (source lines 566-574). -/
def handle_ping (id : Json) (st : ExecutionState) (w : World) :
    Response × ExecutionState :=
  (send_response id
    (some (Json.obj [("status", .str "ok"), ("timestamp", .str w.now)])) none,
   st)

/-- `request.get("id")` as used for every reply after the object check
(source line 646): Python `None` (key absent or null) serializes as JSON
`null`. -/
def requestId (fields : List (String × Json)) : Json :=
  (pyGet fields "id").getD Json.null

/-- The version check `request.get("jsonrpc") != JSON_RPC_VERSION`
(source line 649): only the exact string `"2.0"` passes. -/
def jsonrpcOk (fields : List (String × Json)) : Bool :=
  match pyGet fields "jsonrpc" with
  | some (Json.str v) => v == "2.0"
  | _ => false

/-- The `HANDLERS` registry lookup (source lines 578-584, 680). -/
def dispatchHandler (m : String) (id : Json) (ps : List (String × Json))
    (st : ExecutionState) (w : World) : Option (Response × ExecutionState) :=
  match m with
  | "execute" => some (handle_execute id ps st w)
  | "interrupt" => some (handle_interrupt id st)
  | "reset" => some (handle_reset id st w)
  | "get_state" => some (handle_get_state id st w)
  | "ping" => some (handle_ping id st w)
  | _ => none

/-- Registry lookup, method-not-found reply, and the catch-all that turns an
exception escaping the dispatched handler into an internal-error response
carrying a diagnostic payload (source lines 680-698). -/
def dispatchOrNotFound (m : String) (id : Json) (ps : List (String × Json))
    (st : ExecutionState) (w : World) : Response × ExecutionState :=
  match dispatchHandler m id ps st w with
  | none =>
    (send_response id none
      (some (make_error ERROR_METHOD_NOT_FOUND ("Method not found: " ++ m) none)), st)
  | some r =>
    match w.hexc with
    | some (msg, tb) =>
      (send_response id none
        (some (make_error ERROR_INTERNAL ("Internal error: " ++ msg)
          (some (Json.str tb)))), st)
    | none => r

/-- `process_request` (source lines 623-698): the validation pipeline with
opportunistic id extraction, dispatch through the fixed registry, and the
internal-error catch-all.  The input is the result of `json.loads(line)`
(`Except.error` = `json.JSONDecodeError`). -/
def process_request (parsed : Except String Json) (st : ExecutionState)
    (w : World) : Response × ExecutionState :=
  match parsed with
  | .error e =>
    (send_response Json.null none
      (some (make_error ERROR_PARSE ("Parse error: " ++ e) none)), st)
  | .ok (Json.obj fields) =>
    if !jsonrpcOk fields then
      (send_response (requestId fields) none
        (some (make_error ERROR_INVALID_REQUEST
          "Invalid jsonrpc version, expected '2.0'" none)), st)
    else
      match pyGet fields "method" with
      | some (Json.str m) =>
        if m == "" then
          (send_response (requestId fields) none
            (some (make_error ERROR_INVALID_REQUEST "Missing or invalid 'method'" none)),
           st)
        else
          match pyGet fields "params" with
          | none => dispatchOrNotFound m (requestId fields) [] st w
          | some (Json.obj ps) => dispatchOrNotFound m (requestId fields) ps st w
          | some _ =>
            (send_response (requestId fields) none
              (some (make_error ERROR_INVALID_PARAMS
                "Parameter 'params' must be an object" none)), st)
      | _ =>
        (send_response (requestId fields) none
          (some (make_error ERROR_INVALID_REQUEST "Missing or invalid 'method'" none)),
         st)
  | .ok _ =>
    (send_response Json.null none
      (some (make_error ERROR_INVALID_REQUEST "Request must be a JSON object" none)),
     st)

/-!
## Helper lemmas on the handlers
-/

/-- Field lookup inside a JSON object value. -/
def jsonField (j : Json) (k : String) : Option Json :=
  match j with
  | .obj fs => pyGet fs k
  | _ => none

theorem handle_execute_exactlyOne (id : Json) (ps : List (String × Json))
    (st : ExecutionState) (w : World) :
    exactlyOneOf (handle_execute id ps st w).1 := by
  unfold handle_execute
  repeat' split
  all_goals apply send_response_exactlyOne

theorem handle_execute_id (id : Json) (ps : List (String × Json))
    (st : ExecutionState) (w : World) :
    (handle_execute id ps st w).1.id = id := by
  unfold handle_execute
  repeat' split
  all_goals apply send_response_id

theorem handle_interrupt_exactlyOne (id : Json) (st : ExecutionState) :
    exactlyOneOf (handle_interrupt id st).1 :=
  send_response_exactlyOne id _ none

theorem handle_reset_exactlyOne (id : Json) (st : ExecutionState) (w : World) :
    exactlyOneOf (handle_reset id st w).1 :=
  send_response_exactlyOne id _ none

theorem handle_get_state_exactlyOne (id : Json) (st : ExecutionState) (w : World) :
    exactlyOneOf (handle_get_state id st w).1 :=
  send_response_exactlyOne id _ none

theorem handle_ping_exactlyOne (id : Json) (st : ExecutionState) (w : World) :
    exactlyOneOf (handle_ping id st w).1 :=
  send_response_exactlyOne id _ none

theorem dispatchHandler_exactlyOne (m : String) (id : Json)
    (ps : List (String × Json)) (st : ExecutionState) (w : World)
    (r : Response × ExecutionState) (h : dispatchHandler m id ps st w = some r) :
    exactlyOneOf r.1 := by
  unfold dispatchHandler at h
  split at h
  all_goals
    first
    | exact Option.noConfusion h
    | (injection h with h
       subst h
       first
       | apply handle_execute_exactlyOne
       | apply handle_interrupt_exactlyOne
       | apply handle_reset_exactlyOne
       | apply handle_get_state_exactlyOne
       | apply handle_ping_exactlyOne)

theorem dispatchHandler_id (m : String) (id : Json)
    (ps : List (String × Json)) (st : ExecutionState) (w : World)
    (r : Response × ExecutionState) (h : dispatchHandler m id ps st w = some r) :
    r.1.id = id := by
  unfold dispatchHandler at h
  split at h
  all_goals
    first
    | exact Option.noConfusion h
    | (injection h with h
       subst h
       first
       | apply handle_execute_id
       | exact send_response_id id _ none)

theorem dispatchOrNotFound_exactlyOne (m : String) (id : Json)
    (ps : List (String × Json)) (st : ExecutionState) (w : World) :
    exactlyOneOf (dispatchOrNotFound m id ps st w).1 := by
  unfold dispatchOrNotFound
  split
  · apply send_response_exactlyOne
  · next r heq =>
    split
    · apply send_response_exactlyOne
    · exact dispatchHandler_exactlyOne _ _ _ _ _ _ heq

theorem dispatchOrNotFound_id (m : String) (id : Json)
    (ps : List (String × Json)) (st : ExecutionState) (w : World) :
    (dispatchOrNotFound m id ps st w).1.id = id := by
  unfold dispatchOrNotFound
  split
  · apply send_response_id
  · next r heq =>
    split
    · apply send_response_id
    · exact dispatchHandler_id _ _ _ _ _ _ heq

theorem process_request_exactlyOne (parsed : Except String Json)
    (st : ExecutionState) (w : World) :
    exactlyOneOf (process_request parsed st w).1 := by
  unfold process_request
  repeat' split
  all_goals
    first
    | apply send_response_exactlyOne
    | apply dispatchOrNotFound_exactlyOne

theorem process_request_id (fields : List (String × Json)) (v : Json)
    (st : ExecutionState) (w : World) (h : pyGet fields "id" = some v) :
    (process_request (.ok (.obj fields)) st w).1.id = v := by
  have hid : requestId fields = v := by rw [requestId, h]; rfl
  unfold process_request
  dsimp only
  repeat' split
  all_goals
    first
    | rw [send_response_id, hid]
    | rw [dispatchOrNotFound_id, hid]

/-!
## Claim theorems (protocol and session)
-/

/-- A fixed sample environment for witnesses: an instantly returning
evaluation, no handler exception. -/
def w0 : World :=
  ⟨(0, 0), "2025-01-01T00:00:00+00:00", 0, ⟨0, [], [], .ok, []⟩, none⟩

/-- C1: every response emitted by the protocol layer — for any received line
(including parse failures, schema violations, unknown methods and handler
exceptions) and any collaborator behavior — contains exactly one of the
fields `result` and `error`, never both and never neither; and every
response the serializer `send_response` can build at all has this shape. -/
theorem protocol_response_exactly_one_of_result_error :
    (∀ (parsed : Except String Json) (st : ExecutionState) (w : World),
      exactlyOneOf (process_request parsed st w).1) ∧
    (∀ (id : Json) (result : Option Json) (error : Option ErrObj),
      exactlyOneOf (send_response id result error)) :=
  ⟨process_request_exactlyOne, send_response_exactlyOne⟩

/-- C2: for every received line that parses as a JSON object carrying an
`id` field, the response carries the identical id — across every branch of
the pipeline after id extraction (wrong protocol version, bad method, bad
params, unknown method, handler exception, and every handler reply). -/
theorem response_id_matches_request_id (fields : List (String × Json))
    (v : Json) (st : ExecutionState) (w : World)
    (h : pyGet fields "id" = some v) :
    (process_request (.ok (.obj fields)) st w).1.id = v :=
  process_request_id fields v st w h

/-- Witness for C2 at a concrete ping request with id `"req_001"`. -/
theorem response_id_matches_request_id_witness :
    (process_request (.ok (.obj [("jsonrpc", .str "2.0"), ("id", .str "req_001"),
      ("method", .str "ping")])) initState w0).1.id = .str "req_001" :=
  response_id_matches_request_id _ _ initState w0 rfl

/-- C5: an `execute` whose params lack `code`, or whose `code` is the empty
string (falsy in Python), is answered with the invalid-params error before
the run starts, and the session state — namespace and interrupt flag — is
returned exactly as it was. -/
theorem execute_missing_code_invalid_params_state_unchanged
    (id : Json) (params : List (String × Json)) (st : ExecutionState)
    (w : World)
    (h : pyGet params "code" = none ∨ pyGet params "code" = some (Json.str "")) :
    handle_execute id params st w =
      (send_response id none
        (some (make_error ERROR_INVALID_PARAMS "Missing required parameter: code" none)),
       st) := by
  unfold handle_execute
  rcases h with h | h <;> rw [h] <;> rfl

/-- Witness for C5: params without `code`. -/
theorem execute_missing_code_invalid_params_state_unchanged_witness :
    handle_execute (.str "w5") [("timeout", .num 5)] initState w0 =
      (send_response (.str "w5") none
        (some (make_error ERROR_INVALID_PARAMS "Missing required parameter: code" none)),
       initState) :=
  execute_missing_code_invalid_params_state_unchanged _ _ _ _ (Or.inl rfl)

/-- The collaborator behavior of code that runs for two seconds and would
then finish successfully. -/
def evalRunsTwoSeconds : EvalBehavior := ⟨2, [], [], .ok, []⟩

def wSlow : World := ⟨(0, 0), "t", 2000, evalRunsTwoSeconds, none⟩

/-- C3 (code bug): a positive sub-second timeout is *not* enforced.
`handle_execute` accepts `timeout = 1/2` as a valid positive number, but
`execute_code` arms the watchdog with `signal.alarm(int(timeout))` and
`int(0.5) = 0`, which *disarms* the alarm; so an evaluation that runs for 2
seconds — longer than the 0.5-second deadline — is never aborted: it runs to
completion and the call reports `success = true` with no timeout failure
kind, contradicting the claimed at-the-deadline abort (for comparison, a
timeout of 2 arms the alarm for 2 seconds). -/
theorem subsecond_timeout_never_armed :
    (0 : ℚ) < mkRat 1 2 ∧ mkRat 1 2 < evalRunsTwoSeconds.duration ∧
    armedAlarmSeconds (some (mkRat 1 2)) = 0 ∧
    (execute_code [] (some (mkRat 1 2)) evalRunsTwoSeconds).1.success = true ∧
    (execute_code [] (some (mkRat 1 2)) evalRunsTwoSeconds).1.exception_type = none ∧
    (match (handle_execute (.str "r") [("code", .str "slow()"),
        ("timeout", .num (mkRat 1 2))] initState wSlow).1.result with
     | some j => jsonField j "success"
     | none => none) = some (.bool true) ∧
    armedAlarmSeconds (some 2) = 2 :=
  ⟨by decide, by decide, by decide, by decide, by decide, by rfl, by decide⟩

/-- C10: `get_state` hides every binding whose name starts with an
underscore as well as the helper bindings `clean_memory` and `get_memory`:
a name is listed in `variables` exactly when it is bound in the namespace,
does not start with `_`, and is neither helper; `variable_count` counts that
same filtered list; and concretely, a user binding `_tmp` stays bound in the
namespace yet is invisible to `get_state`. -/
theorem get_state_hides_underscore_and_helpers :
    (∀ (nspace : List (String × PyVal)) (k : String),
      k ∈ stateVariables nspace ↔
        ((∃ v, (k, v) ∈ nspace) ∧ pyStartsWith k "_" = false ∧
         k ≠ "clean_memory" ∧ k ≠ "get_memory")) ∧
    (∀ (id : Json) (st : ExecutionState) (w : World),
      (match (handle_get_state id st w).1.result with
       | some j => jsonField j "variable_count"
       | none => none) = some (.num (stateVariables st.nspace).length)) ∧
    ("_tmp" ∉ stateVariables (default_namespace ++ [("_tmp", .vnum 1)]) ∧
     ("_tmp", PyVal.vnum 1) ∈ default_namespace ++ [("_tmp", .vnum 1)]) := by
  refine ⟨?_, fun id st w => rfl, ?_, by decide⟩
  · intro ns k
    constructor
    · intro hk
      obtain ⟨hmem, hp⟩ := List.mem_filter.1 hk
      obtain ⟨⟨k', v⟩, hv, hk'⟩ := List.mem_map.1 hmem
      subst hk'
      refine ⟨⟨v, hv⟩, ?_, ?_, ?_⟩ <;>
        simp_all [Bool.and_eq_true, Bool.not_eq_true', beq_eq_false_iff_ne]
    · intro hk
      obtain ⟨⟨v, hv⟩, h1, h2, h3⟩ := hk
      refine List.mem_filter.2 ⟨List.mem_map.2 ⟨(k, v), hv, rfl⟩, ?_⟩
      simp [h1, h2, h3]
  · decide

/-!
## Claim theorems (bounded line reader)
-/

theorem readLoop_terminator (maxB : ℕ) :
    ∀ (a acc rest : List ℕ), newlineByte ∉ a → acc.length + a.length < maxB →
      readLoop maxB (a ++ newlineByte :: rest) acc = ((some (acc ++ a), false), rest) := by
  intro a
  induction a with
  | nil =>
    intro acc rest _ hlen
    rw [readLoop.eq_def]
    simp only [List.nil_append, List.length_nil, Nat.add_zero] at hlen ⊢
    rw [if_pos hlen]
    simp
  | cons c a ih =>
    intro acc rest hnl hlen
    have hc : c ≠ newlineByte := fun h => hnl (h ▸ List.mem_cons_self c a)
    have ha : newlineByte ∉ a := fun h => hnl (List.mem_cons_of_mem c h)
    rw [readLoop.eq_def]
    simp only [List.cons_append, List.length_cons] at hlen ⊢
    rw [if_pos (by omega)]
    simp only [if_neg hc]
    rw [ih (acc ++ [c]) rest ha (by simp; omega)]
    simp

theorem readLoop_cap (maxB : ℕ) :
    ∀ (k : ℕ) (acc s : List ℕ), acc.length + k = maxB → k ≤ s.length →
      newlineByte ∉ s.take k →
      readLoop maxB s acc =
        ((some ((acc ++ s.take k).take maxB), true), dropThroughNewline (s.drop k)) := by
  intro k
  induction k with
  | zero =>
    intro acc s hlen _ _
    rw [readLoop.eq_def]
    rw [if_neg (by omega)]
    simp
  | succ k ih =>
    intro acc s hlen hk hnl
    match s with
    | [] => simp at hk
    | c :: rest =>
      have hc : c ≠ newlineByte := by
        intro h
        exact hnl (by rw [List.take_succ_cons]; exact h ▸ List.mem_cons_self c _)
      have ha : newlineByte ∉ rest.take k := by
        intro h
        exact hnl (by rw [List.take_succ_cons]; exact List.mem_cons_of_mem c h)
      rw [readLoop.eq_def]
      rw [if_pos (by omega)]
      simp only [if_neg hc]
      rw [ih (acc ++ [c]) rest (by simp; omega) (by simpa using hk) ha]
      simp

/-- C4: bounded line reading.  If the terminator occurs within the cap (the
first newline of the stream sits among the first `max_bytes` bytes), the
reader returns exactly the bytes before it with `oversized = false`, leaving
the stream right after the terminator.  If the cap is reached before any
terminator, the reader returns the first `max_bytes` bytes with
`oversized = true` and consumes and discards the remaining bytes through the
next terminator (or to end of stream), leaving the stream at the start of
the next line. -/
theorem read_bounded_line_spec (s : List ℕ) (max_bytes : ℕ) :
    (∀ a rest, s = a ++ newlineByte :: rest → newlineByte ∉ a →
      a.length < max_bytes →
      read_bounded_line s max_bytes = ((some a, false), rest)) ∧
    (max_bytes ≤ s.length → newlineByte ∉ s.take max_bytes →
      read_bounded_line s max_bytes =
        ((some (s.take max_bytes), true), dropThroughNewline (s.drop max_bytes))) := by
  constructor
  · intro a rest hs hnl hlen
    subst hs
    have := readLoop_terminator max_bytes a [] rest hnl (by simpa using hlen)
    simpa [read_bounded_line] using this
  · intro hk hnl
    have := readLoop_cap max_bytes max_bytes [] s (by simp) hk hnl
    simpa [read_bounded_line, List.take_take] using this

/-- Witness for C4: both cases at concrete streams ("AB\nC" with cap 5, and
"ABC" with cap 2 followed by drained "C"). -/
theorem read_bounded_line_spec_witness :
    read_bounded_line [65, 66, 10, 67] 5 = ((some [65, 66], false), [67]) ∧
    read_bounded_line [65, 66, 67] 2 =
      ((some [65, 66], true), dropThroughNewline [67]) := by
  constructor
  · exact (read_bounded_line_spec [65, 66, 10, 67] 5).1 [65, 66] [67] rfl
      (by decide) (by decide)
  · exact (read_bounded_line_spec [65, 66, 67] 2).2 (by decide) (by decide)

theorem readLoop_eof (maxB : ℕ) :
    ∀ (a acc : List ℕ), newlineByte ∉ a → acc.length + a.length < maxB →
      readLoop maxB a acc =
        ((if (acc ++ a).isEmpty then none else some (acc ++ a), false), []) := by
  intro a
  induction a with
  | nil =>
    intro acc _ hlen
    rw [readLoop.eq_def]
    simp only [List.length_nil, Nat.add_zero] at hlen
    rw [if_pos hlen]
    simp
  | cons c a ih =>
    intro acc hnl hlen
    have hc : c ≠ newlineByte := fun h => hnl (h ▸ List.mem_cons_self c a)
    have ha : newlineByte ∉ a := fun h => hnl (List.mem_cons_of_mem c h)
    rw [readLoop.eq_def]
    simp only [List.length_cons] at hlen ⊢
    rw [if_pos (by omega)]
    simp only [if_neg hc]
    rw [ih (acc ++ [c]) ha (by simp; omega)]
    simp

theorem readLoop_none (maxB : ℕ) :
    ∀ (s acc : List ℕ), (readLoop maxB s acc).1.1 = none → s = [] ∧ acc = [] := by
  intro s
  induction s with
  | nil =>
    intro acc h
    rw [readLoop.eq_def] at h
    by_cases hl : acc.length < maxB
    · rw [if_pos hl] at h
      refine ⟨rfl, ?_⟩
      by_cases he : acc.isEmpty
      · exact List.isEmpty_iff.1 he
      · simp [he] at h
    · rw [if_neg hl] at h
      simp at h
  | cons c rest ih =>
    intro acc h
    rw [readLoop.eq_def] at h
    by_cases hl : acc.length < maxB
    · rw [if_pos hl] at h
      by_cases hc : c = newlineByte
      · simp [hc] at h
      · simp only [if_neg hc] at h
        rcases ih (acc ++ [c]) h with ⟨_, habs⟩
        simp at habs
    · rw [if_neg hl] at h
      simp at h

/-- C9: an end-of-stream hitting a partially collected final line (no
terminator, fewer bytes than the cap) delivers those bytes as a normal line,
`oversized = false`; the absent payload (`None`) arises only from an
end-of-stream with nothing collected, i.e. only on an empty remaining
stream. -/
theorem partial_final_line_delivered (s : List ℕ) (max_bytes : ℕ) :
    (newlineByte ∉ s → 0 < s.length → s.length < max_bytes →
      read_bounded_line s max_bytes = ((some s, false), [])) ∧
    ((read_bounded_line s max_bytes).1.1 = none → s = []) := by
  constructor
  · intro hnl hpos hlen
    have := readLoop_eof max_bytes s [] hnl (by simpa using hlen)
    rw [read_bounded_line, this]
    have : ¬ s.isEmpty := by
      cases s with
      | nil => simp at hpos
      | cons c r => simp
    simp [this]
  · intro h
    exact (readLoop_none max_bytes s [] h).1

/-- Witness for C9: the unterminated final line `[65]` is delivered, and the
empty stream is the only `none` case. -/
theorem partial_final_line_delivered_witness :
    read_bounded_line [65] 3 = ((some [65], false), []) ∧ ([] : List ℕ) = [] := by
  constructor
  · exact (partial_final_line_delivered [65] 3).1 (by decide) (by decide) (by decide)
  · exact (partial_final_line_delivered [] 3).2 rfl

/-!
## Claim theorems (bounded output capture)
-/

theorem bwrite_truncated (b : BoundedStringIO) (s : List Char)
    (h : b.truncated = true) : bwrite b s = b := by
  unfold bwrite
  rw [if_pos h]

theorem writeAll_truncated (ws : List (List Char)) :
    ∀ (b : BoundedStringIO), b.truncated = true → writeAll b ws = b := by
  induction ws with
  | nil => intro b _; rfl
  | cons s ws ih =>
    intro b h
    show writeAll (bwrite b s) ws = b
    rw [bwrite_truncated b s h, ih b h]

theorem writeAll_spec (ws : List (List Char)) :
    ∀ (b : BoundedStringIO),
      b.truncated = false → b.size = b.buffer.length → b.size ≤ b.max_size →
      (b.size + (ws.map List.length).sum ≤ b.max_size →
        writeAll b ws =
          ⟨b.buffer ++ ws.flatten, b.size + (ws.map List.length).sum, b.max_size, false⟩) ∧
      (b.max_size < b.size + (ws.map List.length).sum →
        (writeAll b ws).truncated = true ∧
        (writeAll b ws).buffer = (b.buffer ++ ws.flatten).take b.max_size ∧
        (writeAll b ws).max_size = b.max_size) := by
  induction ws with
  | nil =>
    intro b htr hsz hle
    constructor
    · intro _
      cases b
      simp_all [writeAll]
    · intro h
      exact absurd h (by simp; omega)
  | cons s ws ih =>
    intro b htr hsz hle
    have hstep : writeAll b (s :: ws) = writeAll (bwrite b s) ws := rfl
    by_cases hover : b.max_size < b.size + s.length
    · -- this write crosses the cap: truncation happens now and is permanent
      have hb : (bwrite b s).truncated = true ∧
          (bwrite b s).buffer = (b.buffer ++ s).take b.max_size ∧
          (bwrite b s).max_size = b.max_size := by
        unfold bwrite
        rw [if_neg (by simp [htr]), if_pos (by omega)]
        by_cases hrem : b.max_size - b.size > 0
        · rw [if_pos hrem]
          refine ⟨rfl, ?_, rfl⟩
          show b.buffer ++ s.take (b.max_size - b.size) = (b.buffer ++ s).take b.max_size
          rw [@List.take_append_eq_append_take _ b.buffer s b.max_size,
            List.take_of_length_le (show b.buffer.length ≤ b.max_size by omega), hsz]
        · rw [if_neg hrem]
          refine ⟨rfl, ?_, rfl⟩
          show b.buffer = (b.buffer ++ s).take b.max_size
          have hmax : b.max_size = b.buffer.length := by omega
          rw [hmax, List.take_append_of_le_length (Nat.le_refl _), List.take_length]
      have hfin : writeAll b (s :: ws) = bwrite b s := by
        rw [hstep, writeAll_truncated ws _ hb.1]
      constructor
      · intro h
        exact absurd h (by simp; omega)
      · intro _
        refine ⟨by rw [hfin]; exact hb.1, ?_, by rw [hfin]; exact hb.2.2⟩
        rw [hfin, hb.2.1]
        have hlen : b.max_size ≤ (b.buffer ++ s).length := by
          simp [List.length_append]; omega
        rw [show b.buffer ++ (s :: ws).flatten = (b.buffer ++ s) ++ ws.flatten by
              simp [List.append_assoc],
            List.take_append_of_le_length hlen]
    · -- this write fits entirely
      have hb : bwrite b s =
          { b with buffer := b.buffer ++ s, size := b.size + s.length } := by
        unfold bwrite
        rw [if_neg (by simp [htr]), if_neg (by omega)]
      have ih2 := ih (bwrite b s)
        (by rw [hb]; exact htr) (by rw [hb]; simp [List.length_append, hsz])
        (by rw [hb]; simp; omega)
      constructor
      · intro h
        have h2 : (bwrite b s).size + (ws.map List.length).sum ≤ (bwrite b s).max_size := by
          rw [hb]; simp at h ⊢; omega
        rw [hstep, ih2.1 h2, hb]
        simp [List.append_assoc, Nat.add_assoc]
      · intro h
        have h2 : (bwrite b s).max_size < (bwrite b s).size + (ws.map List.length).sum := by
          rw [hb]; simp at h ⊢; omega
        have ⟨c1, c2, c3⟩ := ih2.2 h2
        rw [hstep]
        refine ⟨c1, ?_, by rw [c3, hb]⟩
        rw [c2, hb]
        simp [List.append_assoc]

/-- C6: the bounded capture buffer.  Writing is a total function (the Python
method never raises).  If the cumulative written size stays within the cap,
the truncated flag stays false and reading returns exactly the concatenation
of the writes.  Once the cumulative size exceeds the cap, the flag becomes
true and — because a truncated buffer ignores all further writes — stays
true for every subsequent write; only the first `C` characters of the
concatenation are retained, and reading returns them followed by the fixed
truncation notice. -/
theorem bounded_capture_spec (ws : List (List Char)) (C : ℕ) :
    ((ws.map List.length).sum ≤ C →
      (writeAll (mkBounded C) ws).truncated = false ∧
      getvalue (writeAll (mkBounded C) ws) = ws.flatten) ∧
    (C < (ws.map List.length).sum →
      (writeAll (mkBounded C) ws).truncated = true ∧
      getvalue (writeAll (mkBounded C) ws) = (ws.flatten).take C ++ TRUNCATION_NOTICE) ∧
    (∀ ws', (writeAll (mkBounded C) ws).truncated = true →
      writeAll (writeAll (mkBounded C) ws) ws' = writeAll (mkBounded C) ws) := by
  have hspec := writeAll_spec ws (mkBounded C) rfl rfl (by simp [mkBounded])
  refine ⟨?_, ?_, fun ws' h => writeAll_truncated ws' _ h⟩
  · intro h
    rw [hspec.1 (by simpa [mkBounded] using h)]
    simp [getvalue, mkBounded]
  · intro h
    have ⟨c1, c2, c3⟩ := hspec.2 (by simpa [mkBounded] using h)
    refine ⟨c1, ?_⟩
    rw [getvalue, if_pos c1, c2]
    simp [mkBounded]

/-- Witness for C6: cap 3, writes "ab" then "cd" (total 4 > 3): truncated,
and reading gives "abc" plus the notice; cap 4 on the same writes: intact. -/
theorem bounded_capture_spec_witness :
    ((writeAll (mkBounded 3) [['a', 'b'], ['c', 'd']]).truncated = true ∧
      getvalue (writeAll (mkBounded 3) [['a', 'b'], ['c', 'd']]) =
        (([['a', 'b'], ['c', 'd']] : List (List Char)).flatten).take 3 ++ TRUNCATION_NOTICE) ∧
    ((writeAll (mkBounded 4) [['a', 'b'], ['c', 'd']]).truncated = false ∧
      getvalue (writeAll (mkBounded 4) [['a', 'b'], ['c', 'd']]) =
        ([['a', 'b'], ['c', 'd']] : List (List Char)).flatten) :=
  ⟨(bounded_capture_spec [['a', 'b'], ['c', 'd']] 3).2.1 (by decide),
   (bounded_capture_spec [['a', 'b'], ['c', 'd']] 4).1 (by decide)⟩

/-!
## Lemmas on the marker scanner
-/

theorem dropWhile_head_false {α : Type} {p : α → Bool} :
    ∀ {l t : List α} {a : α}, l.dropWhile p = a :: t → p a = false := by
  intro l
  induction l with
  | nil => intro t a h; simp [List.dropWhile] at h
  | cons c cs ih =>
    intro t a h
    rw [List.dropWhile_cons] at h
    by_cases hc : p c
    · rw [if_pos hc] at h
      exact ih h
    · rw [if_neg hc] at h
      cases h
      simpa using hc

theorem afterBracketClose_rest (r : List Char) :
    (afterBracketClose r).2 <:+ r ∧
    (∀ c t, (afterBracketClose r).2 = c :: t → c = '\n') := by
  constructor
  · exact (List.dropWhile_suffix notNewline).trans (List.dropWhile_suffix isPySpace)
  · intro c t hct
    have := dropWhile_head_false hct
    simpa [notNewline] using this

/-- A successful match consumes at least the bracket: its `rest` is a proper
suffix of the input, and the character right after the match end (if any) is
a newline. -/
theorem tryMatchAt_rest {s : List Char} {mp : MatchParts}
    (h : tryMatchAt s = some mp) :
    mp.rest <:+ s ∧ mp.rest.length < s.length ∧
    (∀ c t, mp.rest = c :: t → c = '\n') := by
  unfold tryMatchAt at h
  split at h
  case h_2 => exact Option.noConfusion h
  split at h
  case h_2 => exact Option.noConfusion h
  split at h
  case isFalse => exact Option.noConfusion h
  split at h
  case h_3 => exact Option.noConfusion h
  case h_2 =>
    rename_i _x1 _r2 c r3 heq1 _hup _x2 r7 heq3
    have hsuf2 : ('[' :: c :: r3) <:+ s := heq1 ▸ List.dropWhile_suffix isPySpace
    have hsuf3 : r3 <:+ s :=
      ((List.suffix_cons c r3).trans (List.suffix_cons '[' _)).trans hsuf2
    have hlen3 : r3.length + 2 ≤ s.length := by
      have := hsuf2.length_le
      simp at this
      omega
    have hsuf7 : (']' :: r7) <:+ r3 := heq3 ▸ List.dropWhile_suffix isTypeChar
    have habc := afterBracketClose_rest r7
    injection h with h
    subst h
    refine ⟨?_, ?_, habc.2⟩
    · exact (habc.1.trans ((List.suffix_cons ']' r7).trans hsuf7)).trans hsuf3
    · show (afterBracketClose r7).2.length < s.length
      have h1 := habc.1.length_le
      have h2 := hsuf7.length_le
      simp at h2
      omega
  case h_1 =>
    split at h
    case h_2 => exact Option.noConfusion h
    split at h
    case isTrue => exact Option.noConfusion h
    rename_i _x1 _r2 c r3 heq1 _hup _x2 r5 heq2 _x3 r7 heq3 _hne
    have hsuf2 : ('[' :: c :: r3) <:+ s := heq1 ▸ List.dropWhile_suffix isPySpace
    have hsuf3 : r3 <:+ s :=
      ((List.suffix_cons c r3).trans (List.suffix_cons '[' _)).trans hsuf2
    have hlen3 : r3.length + 2 ≤ s.length := by
      have := hsuf2.length_le
      simp at this
      omega
    have hsuf5 : (':' :: r5) <:+ r3 := heq2 ▸ List.dropWhile_suffix isTypeChar
    have hsuf7 : (']' :: r7) <:+ r5 := heq3 ▸ List.dropWhile_suffix notRBracket
    have habc := afterBracketClose_rest r7
    injection h with h
    subst h
    refine ⟨?_, ?_, habc.2⟩
    · exact (habc.1.trans ((List.suffix_cons ']' r7).trans hsuf7)).trans
        (((List.suffix_cons ':' r5).trans hsuf5).trans hsuf3)
    · show (afterBracketClose r7).2.length < s.length
      have h1 := habc.1.length_le
      have h2 := hsuf7.length_le
      have h3 := hsuf5.length_le
      simp at h2 h3
      omega

theorem findMarkersFuel_nil : ∀ (fuel off : ℕ), findMarkersFuel fuel off [] = [] := by
  intro fuel off
  cases fuel <;> rfl

theorem suffix_drop_sub {α : Type} {l t : List α} (h : t <:+ l) :
    l.drop (l.length - t.length) = t := by
  obtain ⟨p, rfl⟩ := h
  rw [List.length_append, Nat.add_sub_cancel, List.drop_left]

theorem count_take_le (l : List Char) (a : Char) {i j : ℕ} (h : i ≤ j) :
    (l.take i).count a ≤ (l.take j).count a :=
  List.Sublist.count_le (List.take_prefix_take_left l h).sublist a

/-- Every marker the scan emits starts at or after the scan position. -/
theorem findMarkers_start_ge : ∀ (fuel off : ℕ) (s : List Char) (rm : RawMarker),
    rm ∈ findMarkersFuel fuel off s → off ≤ rm.start := by
  intro fuel
  induction fuel with
  | zero => intro off s rm h; simp [findMarkersFuel] at h
  | succ fuel ih =>
    intro off s rm h
    simp only [findMarkersFuel] at h
    split at h
    · rcases List.mem_cons.1 h with rfl | h2
      · exact Nat.le_refl off
      · exact Nat.le_trans (by omega) (ih _ _ _ h2)
    · split at h
      · simp at h
      · exact Nat.le_trans (by omega) (ih _ _ _ h)

/-- The scan emits markers whose before-start newline counts are strictly
increasing (each successive match begins on a later line), and every
emitted marker starts at or after the scan position (so its newline count
is at least the count of the consumed prefix). -/
theorem findMarkers_counts : ∀ (fuel : ℕ) (pre s : List Char),
    (((findMarkersFuel fuel pre.length s).map
        (fun rm => ((pre ++ s).take rm.start).count '\n')).Pairwise (· < ·)) ∧
    (∀ rm ∈ findMarkersFuel fuel pre.length s,
      pre.count '\n' ≤ ((pre ++ s).take rm.start).count '\n') := by
  intro fuel
  induction fuel with
  | zero => intro pre s; simp [findMarkersFuel]
  | succ fuel ih =>
    intro pre s
    have hheadcount : ((pre ++ s).take pre.length).count '\n' = pre.count '\n' := by
      rw [List.take_left]
    simp only [findMarkersFuel]
    split
    · -- a match at this line start
      next mp heq =>
      obtain ⟨hsuf, hlt, hnlhead⟩ := tryMatchAt_rest heq
      have hdrop : s.drop (s.length - mp.rest.length) = mp.rest := suffix_drop_sub hsuf
      by_cases hnil : mp.rest = []
      · rw [hnil]
        simp only [List.drop_nil, findMarkersFuel_nil, List.map_cons, List.map_nil]
        constructor
        · exact List.pairwise_singleton _ _
        · intro rm hm
          rcases List.mem_cons.1 hm with rfl | h2
          · rw [hheadcount]
          · simp at h2
      · obtain ⟨c, t, hr⟩ := List.exists_cons_of_ne_nil hnil
        have hc : c = '\n' := hnlhead c t hr
        subst hc
        have hrlen : mp.rest.length = t.length + 1 := by rw [hr]; rfl
        have hn1 : s.length - mp.rest.length + 1 ≤ s.length := by omega
        have htake : s.take (s.length - mp.rest.length + 1) =
            s.take (s.length - mp.rest.length) ++ ['\n'] := by
          rw [List.take_add]
          rw [hdrop, hr]
          rfl
        have hdrop1 : s.drop (s.length - mp.rest.length + 1) = t := by
          rw [← List.drop_drop 1 (s.length - mp.rest.length) s, hdrop, hr]
          rfl
        have happ : (pre ++ s.take (s.length - mp.rest.length + 1)) ++ t = pre ++ s := by
          rw [List.append_assoc]
          congr 1
          rw [← hdrop1]
          exact List.take_append_drop _ s
        have hprelen : (pre ++ s.take (s.length - mp.rest.length + 1)).length =
            pre.length + (s.length - mp.rest.length) + 1 := by
          rw [List.length_append, List.length_take]
          omega
        have hprecount : (pre ++ s.take (s.length - mp.rest.length + 1)).count '\n' =
            pre.count '\n' + ((s.take (s.length - mp.rest.length)).count '\n' + 1) := by
          rw [List.count_append, htake, List.count_append]
          simp
        have ihx := ih (pre ++ s.take (s.length - mp.rest.length + 1)) t
        rw [happ, hprelen] at ihx
        have hrest1 : mp.rest.drop 1 = t := by rw [hr]; rfl
        rw [hrest1]
        have hmemb : ∀ rm ∈ findMarkersFuel fuel
            (pre.length + (s.length - mp.rest.length) + 1) t,
            pre.count '\n' + 1 ≤ ((pre ++ s).take rm.start).count '\n' := by
          intro rm hm
          have hb := ihx.2 rm hm
          rw [hprecount] at hb
          omega
        constructor
        · rw [List.map_cons]
          refine List.pairwise_cons.2 ⟨?_, ihx.1⟩
          intro b hb
          obtain ⟨rm, hm, rfl⟩ := List.mem_map.1 hb
          have := hmemb rm hm
          rw [hheadcount]
          omega
        · intro rm hm
          rcases List.mem_cons.1 hm with rfl | h2
          · rw [hheadcount]
          · have := hmemb rm h2
            omega
    · -- no match here: skip to the next line start
      split
      · simp
      · next c tail heq2 =>
        have hc : c = '\n' := by
          have := dropWhile_head_false heq2
          simpa [notNewline] using this
        subst hc
        have hsplit : s = s.takeWhile notNewline ++ '\n' :: tail := by
          rw [← heq2]
          exact (List.takeWhile_append_dropWhile notNewline s).symm
        have hprelen : (pre ++ s.takeWhile notNewline ++ ['\n']).length =
            pre.length + (s.takeWhile notNewline).length + 1 := by
          simp
          omega
        have happ : (pre ++ s.takeWhile notNewline ++ ['\n']) ++ tail = pre ++ s := by
          conv_rhs => rw [hsplit]
          simp
        have hprecount : pre.count '\n' + 1 ≤
            (pre ++ s.takeWhile notNewline ++ ['\n']).count '\n' := by
          simp [List.count_append]
        have ihx := ih (pre ++ s.takeWhile notNewline ++ ['\n']) tail
        rw [happ, hprelen] at ihx
        refine ⟨ihx.1, ?_⟩
        intro rm hm
        have hb := ihx.2 rm hm
        omega

theorem lookup_string_mem : ∀ (l : List (String × String)) (t v : String),
    l.lookup t = some v → ∃ k, (k, v) ∈ l := by
  intro l
  induction l with
  | nil => intro t v h; simp [List.lookup] at h
  | cons p l ih =>
    intro t v h
    rw [List.lookup] at h
    split at h
    · injection h with h
      exact ⟨p.1, by rw [← h]; exact List.mem_cons_self _ _⟩
    · obtain ⟨k, hk⟩ := ih t v h
      exact ⟨k, List.mem_cons_of_mem _ hk⟩

/-!
## Claim theorems (output annotator)
-/

/-- C7: the annotator classifies each marker by looking its
hyphens-to-underscores-normalized type up in the fixed taxonomy — the stored
category is always the taxonomy entry for the stored type (`"unknown"` when
absent) and the validity flag is exactly taxonomy membership, so
`valid = false` exactly when `category = "unknown"`; concretely,
`"[STAT:mean] 0.95"` yields the single marker (STAT, mean, "0.95", line 1,
calculations, valid), `"[BOGUS] x"` yields a marker that is retained with
category `"unknown"` and `valid = false` rather than being dropped, and
`"[NEXT-STEP] go"` is normalized to type `NEXT_STEP` (scientific, valid). -/
theorem marker_classification_spec :
    (∀ (text : List Char), ∀ m ∈ parse_markers text,
      m.category = categoryOf m.type ∧
      m.valid = (MARKER_CATEGORIES.lookup m.type).isSome ∧
      (m.valid = false ↔ m.category = "unknown")) ∧
    parse_markers ("[STAT:mean] 0.95".toList) =
      [{ type := "STAT", subtype := some "mean", content := "0.95",
         line_number := 1, category := "calculations", valid := true }] ∧
    parse_markers ("[BOGUS] x".toList) =
      [{ type := "BOGUS", subtype := none, content := "x",
         line_number := 1, category := "unknown", valid := false }] ∧
    parse_markers ("[NEXT-STEP] go".toList) =
      [{ type := "NEXT_STEP", subtype := none, content := "go",
         line_number := 1, category := "scientific", valid := true }] := by
  refine ⟨?_, by decide, by decide, by decide⟩
  intro text m hm
  obtain ⟨rm, hrm, rfl⟩ := List.mem_map.1 hm
  refine ⟨rfl, rfl, ?_⟩
  show (MARKER_CATEGORIES.lookup ((normalizeType rm.rawType).asString)).isSome = false ↔
    categoryOf ((normalizeType rm.rawType).asString) = "unknown"
  cases hl : MARKER_CATEGORIES.lookup ((normalizeType rm.rawType).asString) with
  | none => simp [categoryOf, hl]
  | some v =>
    obtain ⟨k, hk⟩ := lookup_string_mem _ _ _ hl
    have hall : ∀ p ∈ MARKER_CATEGORIES, p.2 ≠ "unknown" := by decide
    have hv := hall (k, v) hk
    simp only [ne_eq] at hv
    simp [categoryOf, hl, hv]

/-- Witness for C7's per-marker classification clause, at the `[BOGUS] x`
marker. -/
theorem marker_classification_spec_witness :
    (Marker.mk "BOGUS" none "x" 1 "unknown" false).category =
      categoryOf (Marker.mk "BOGUS" none "x" 1 "unknown" false).type ∧
    (Marker.mk "BOGUS" none "x" 1 "unknown" false).valid =
      (MARKER_CATEGORIES.lookup (Marker.mk "BOGUS" none "x" 1 "unknown" false).type).isSome ∧
    ((Marker.mk "BOGUS" none "x" 1 "unknown" false).valid = false ↔
      (Marker.mk "BOGUS" none "x" 1 "unknown" false).category = "unknown") :=
  marker_classification_spec.1 ("[BOGUS] x".toList) _ (by decide)

/-- C8 counterexample: scanning `"\n[STAT] x"` yields one marker whose
`line_number` is 1, although its bracketed token (the `[` at index 1, after
one newline) sits on line 2 of the scanned text: the regex's leading `\s*`
skips the newline, so the match starts at offset 0 and the line number is
computed from the match start, not from the token. -/
theorem marker_line_number_counterexample :
    parse_markers ("\n[STAT] x".toList) =
      [{ type := "STAT", subtype := none, content := "x",
         line_number := 1, category := "calculations", valid := true }] ∧
    ("\n[STAT] x".toList).indexOf '[' = 1 ∧
    (("\n[STAT] x".toList).take (("\n[STAT] x".toList).indexOf '[')).count '\n' + 1 = 2 :=
  ⟨by decide, by decide, by decide⟩

/-- C8 (amended): markers are produced in document order — their line
numbers are strictly increasing — and each marker's line number is the
1-indexed line of the *start of its match* (1 + the newlines before the
position where the skipped leading whitespace begins), which always lies
between 1 and the number of lines of the scanned text; it equals the line of
the bracketed token itself whenever the skipped whitespace does not cross a
newline (e.g. `"A\n[STAT] x"` reports line 2), but not in general (see the
counterexample). -/
theorem marker_order_and_line_numbers (text : List Char) :
    ((parse_markers text).map Marker.line_number).Pairwise (· < ·) ∧
    (∀ m ∈ parse_markers text,
      1 ≤ m.line_number ∧ m.line_number ≤ text.count '\n' + 1) ∧
    (parse_markers ("A\n[STAT] x".toList)).map Marker.line_number = [2] := by
  refine ⟨?_, ?_, by decide⟩
  · have h := (findMarkers_counts (text.length + 1) [] text).1
    simp only [List.nil_append, List.length_nil] at h
    rw [parse_markers, List.map_map, List.pairwise_map]
    rw [List.pairwise_map] at h
    exact h.imp (fun hab => Nat.add_lt_add_right hab 1)
  · intro m hm
    obtain ⟨rm, hrm, rfl⟩ := List.mem_map.1 hm
    have hsub := List.Sublist.count_le (List.take_sublist rm.start text) '\n'
    show 1 ≤ (text.take rm.start).count '\n' + 1 ∧
      (text.take rm.start).count '\n' + 1 ≤ text.count '\n' + 1
    omega

/-- Witness for C8's bound clause at the `"A\n[STAT] x"` marker. -/
theorem marker_order_and_line_numbers_witness :
    1 ≤ (Marker.mk "STAT" none "x" 2 "calculations" true).line_number ∧
    (Marker.mk "STAT" none "x" 2 "calculations" true).line_number ≤
      ("A\n[STAT] x".toList).count '\n' + 1 :=
  (marker_order_and_line_numbers ("A\n[STAT] x".toList)).2.1 _ (by decide)

end Gyoshu
